import Mathlib

/-!
Shallow embedding of the xact activity monitor (src/xact.py) and proofs of the
specification claims about it.

The embedding follows the Python source function by function:

* the input-statistics bank (`Activity.update_input_stat`, `Activity.flush_input_stat`)
  becomes explicit state passing over an association list of counters;
* the bounded memoizing process-metadata cache (`cmdline_by_pid`, decorated with
  an LRU cache of capacity 256) becomes a recency-ordered list of entries,
  most-recently-used first, with eviction by truncation;
* the window-metadata resolver (`EWMH.window_options`) becomes a function into an
  exception monad in which the cache state and the events already written to the
  output stream survive a raised exception, mirroring the fact that the Python
  exception unwinds the stack but does not undo writes to stdout or to the cache;
* the focus tracker (`Activity.process_window`, `Activity.handle_window`) becomes
  a step function on an explicit `ActivityState`.

Events written to stdout by `log` are collected in output lists, in emission order.
-/

/-- A window-metadata record, the dict built by `EWMH.window_options`:
keys name, wid, pid, fullscreen, class.  Python dict equality is structural,
matched here by the derived decidable equality.  The field `cls` models the
dict key named class. -/
structure WindowMetadata where
  name : Option String
  wid : Nat
  pid : Option Nat
  fullscreen : Bool
  cls : List String
deriving DecidableEq, Repr

/-- An event written by `log`: the event tag together with its payload.
The wrapper fields time and v added by `log` carry no claim-relevant
information and are omitted. -/
inductive Event where
  | newPid (pid : Nat) (cmdline : List String)
  | activeWindow (payload : Option WindowMetadata)
  | input (timeout : Bool) (stats : List (String × Nat)) (interval : Option Nat)
deriving DecidableEq, Repr

/-! ## Input aggregator

`Activity.input_stat` is a `defaultdict(int)`: keys appear on first increment
and every stored count is at least 1.  We model it as an insertion-ordered
association list; `bump` is `self.input_stat[key] += 1` and `statCount` is the
count lookup (0 when the key is absent, as for the defaultdict). -/

/-- Increment the counter for `key`, creating it at 1 if absent
(`self.input_stat[key] += 1` on a `defaultdict(int)`). -/
def bump : List (String × Nat) → String → List (String × Nat)
  | [], key => [(key, 1)]
  | (k, v) :: rest, key =>
    if k = key then (k, v + 1) :: rest else (k, v) :: bump rest key

/-- The count stored for `key`, 0 when absent. -/
def statCount : List (String × Nat) → String → Nat
  | [], _ => 0
  | (k, v) :: rest, key => if k = key then v else statCount rest key

/-- The configured periodic flush interval (`self.input_flush_interval = 20`). -/
def input_flush_interval : Nat := 20

/-- `Activity.flush_input_stat` acting on the bank alone: if the bank is empty
return immediately, otherwise emit the `input` event (with the interval field
only when `timeout` is true) and reset the bank. -/
def flushBank (stat : List (String × Nat)) (timeout : Bool) :
    List (String × Nat) × List Event :=
  if stat = [] then (stat, [])
  else
    ([], [Event.input timeout stat
            (if timeout then some input_flush_interval else none)])

/-- One sequential operation against the input aggregator: a `record` is one
listener callback reaching `update_input_stat`, a `flush` is one call to
`flush_input_stat` with the given timeout flag. -/
inductive InOp where
  | record (kind : String)
  | flush (timeout : Bool)
deriving DecidableEq, Repr

/-- Run a sequence of aggregator operations from a given bank, returning the
final bank and the emitted events in order. -/
def runInput : List (String × Nat) → List InOp → List (String × Nat) × List Event
  | stat, [] => (stat, [])
  | stat, InOp.record k :: ops => runInput (bump stat k) ops
  | stat, InOp.flush t :: ops =>
    let fr := flushBank stat t
    let r := runInput fr.1 ops
    (r.1, fr.2 ++ r.2)

/-- Total count reported for `kind` across all `input` events of a list. -/
def emittedCount (kind : String) : List Event → Nat
  | [] => 0
  | Event.input _ stats _ :: evs => statCount stats kind + emittedCount kind evs
  | _ :: evs => emittedCount kind evs

/-- Number of `record kind` operations in a trace. -/
def recordCount (kind : String) : List InOp → Nat
  | [] => 0
  | InOp.record k :: ops => (if k = kind then 1 else 0) + recordCount kind ops
  | _ :: ops => recordCount kind ops

/-! ## Process metadata cache

`cmdline_by_pid` is decorated with `lru_cache(maxsize=256)`.  The cache is a
list of pid-cmdline entries in recency order, most-recently-used first.  A hit
moves the entry to the front; a miss-fill inserts at the front and truncates to
the capacity, dropping the least-recently-used entry.  A failed process-table
lookup (the pid no longer exists, psutil.NoSuchProcess) raises out of the call
and caches nothing.  The process table itself is an oracle
`Nat → Option (List String)`, none meaning the pid does not exist. -/

/-- The LRU cache state of `cmdline_by_pid`, entries most-recently-used first. -/
structure Cache where
  entries : List (Nat × List String)
deriving DecidableEq, Repr

/-- The cache capacity (`lru_cache(maxsize=256)`). -/
def CACHE_MAX : Nat := 256

/-- Value stored for a pid, none on a cache miss. -/
def cacheLookup : List (Nat × List String) → Nat → Option (List String)
  | [], _ => none
  | (p, v) :: rest, q => if q = p then some v else cacheLookup rest q

/-- Remove the entry for a pid (first occurrence). -/
def cacheRemove : List (Nat × List String) → Nat → List (Nat × List String)
  | [], _ => []
  | (p, v) :: rest, q => if q = p then rest else (p, v) :: cacheRemove rest q

/-- `cmdline_by_pid(pid)`: on a hit return the cached cmdline, refreshing the
recency of the entry, with no event; on a miss look the pid up in the process
table — if it no longer exists the error propagates (`Except.error`) and
nothing is cached, otherwise log the one-time `new-pid` event and cache the
entry, evicting the least-recently-used entry when over capacity. -/
def cmdline_by_pid (table : Nat → Option (List String)) (c : Cache) (pid : Nat) :
    Except Unit (List String × Cache × List Event) :=
  match cacheLookup c.entries pid with
  | some v => Except.ok (v, ⟨(pid, v) :: cacheRemove c.entries pid⟩, [])
  | none =>
    match table pid with
    | none => Except.error ()
    | some v =>
      Except.ok (v, ⟨((pid, v) :: c.entries).take CACHE_MAX⟩, [Event.newPid pid v])

/-- Run a sequence of `cmdline_by_pid` calls left to right, collecting the
events; a failing call contributes nothing (used only with total tables). -/
def runCache (table : Nat → Option (List String)) : Cache → List Nat → Cache × List Event
  | c, [] => (c, [])
  | c, p :: ps =>
    match cmdline_by_pid table c p with
    | Except.error _ => (c, [])
    | Except.ok (_, c', evs) =>
      let r := runCache table c' ps
      (r.1, evs ++ r.2)

/-! ## Window metadata resolver

`EWMH.window_options` runs under one try/except catching only
`Xlib.error.BadWindow`.  Inside it, `getWmPid` catches `TypeError` (malformed
pid property) and `cmdline_by_pid` may raise `psutil.NoSuchProcess`, which the
except clause does NOT catch.  A window handle is modelled by the outcomes its
property queries would produce; name, fullscreen and class carry their already
decoded values, the byte-level decoding of the class property being modelled
separately below for `getWmClass`.  Because a Python exception does not undo
writes already made to stdout or to the LRU cache, the error value carries the
cache state and the events emitted before the raise. -/

/-- Exceptions that can cross function boundaries in the resolution path. -/
inductive PyErr where
  | badWindow
  | noSuchProcess
deriving DecidableEq, Repr

/-- Outcome of the underlying pid property query (`super().getWmPid`):
a value, a `TypeError` for a malformed property, or a `BadWindow` error. -/
inductive PidProp where
  | val (p : Option Nat)
  | typeError
  | badWindow
deriving DecidableEq, Repr

/-- Outcome of a window property query that can fail with `BadWindow`. -/
inductive XR (α : Type) where
  | ok (a : α)
  | badWindow
deriving DecidableEq, Repr

/-- A window handle together with the outcomes of its property queries. -/
structure WinQ where
  id : Nat
  pidQ : PidProp
  nameQ : XR (Option String)
  fsQ : XR Bool
  classQ : XR (List String)
deriving DecidableEq, Repr

/-- `EWMH.getWmPid`: forwards the underlying query, catching `TypeError`
(returning None); a `BadWindow` error propagates. -/
def getWmPid : PidProp → Except Unit (Option Nat)
  | PidProp.val p => Except.ok p
  | PidProp.typeError => Except.ok none
  | PidProp.badWindow => Except.error ()

/-- The statement `if pid: cmdline_by_pid(pid)` of `window_options`: the call
happens only for a truthy pid (neither None nor 0); its return value is
discarded, only the cache update and the possible `new-pid` event remain.
A `NoSuchProcess` error from the call propagates. -/
def cmdlineStep (table : Nat → Option (List String)) (c : Cache) (pid : Option Nat) :
    Except Unit (Cache × List Event) :=
  match pid with
  | none => Except.ok (c, [])
  | some p =>
    if p = 0 then Except.ok (c, [])
    else
      match cmdline_by_pid table c p with
      | Except.error _ => Except.error ()
      | Except.ok (_, c', evs) => Except.ok (c', evs)

/-- The body of the try block of `EWMH.window_options` for a present handle:
query the pid, run the cache step, then build the metadata dict, each property
query possibly raising `BadWindow`.  An error carries the cache state and the
events already emitted at the moment of the raise. -/
def window_options_body (table : Nat → Option (List String)) (c : Cache) (w : WinQ) :
    Except (PyErr × Cache × List Event) (WindowMetadata × Cache × List Event) :=
  match getWmPid w.pidQ with
  | Except.error _ => Except.error (PyErr.badWindow, c, [])
  | Except.ok pid =>
    match cmdlineStep table c pid with
    | Except.error _ => Except.error (PyErr.noSuchProcess, c, [])
    | Except.ok (c1, evs) =>
      match w.nameQ with
      | XR.badWindow => Except.error (PyErr.badWindow, c1, evs)
      | XR.ok name =>
        match w.fsQ with
        | XR.badWindow => Except.error (PyErr.badWindow, c1, evs)
        | XR.ok fs =>
          match w.classQ with
          | XR.badWindow => Except.error (PyErr.badWindow, c1, evs)
          | XR.ok cls =>
            Except.ok (⟨name, w.id, pid, fs, cls⟩, c1, evs)

/-- `EWMH.window_options`: None for an absent handle; otherwise run the body,
catching `BadWindow` (resolution yields None); a `NoSuchProcess` error is not
caught and propagates to the caller. -/
def window_options (table : Nat → Option (List String)) (c : Cache) (win : Option WinQ) :
    Except (PyErr × Cache × List Event) (Option WindowMetadata × Cache × List Event) :=
  match win with
  | none => Except.ok (none, c, [])
  | some w =>
    match window_options_body table c w with
    | Except.ok (md, c', evs) => Except.ok (some md, c', evs)
    | Except.error (PyErr.badWindow, c', evs) => Except.ok (none, c', evs)
    | Except.error (PyErr.noSuchProcess, c', evs) =>
      Except.error (PyErr.noSuchProcess, c', evs)

/-! ## Focus tracker -/

/-- The mutable fields of `Activity` touched by the focus tracker, together
with the LRU cache of `cmdline_by_pid` (a process-wide global in the source).
`last_window` stores the handle id, since Xlib resource objects compare
by id. -/
structure ActivityState where
  window_details : Option WindowMetadata
  last_window : Option Nat
  input_stat : List (String × Nat)
  cache : Cache
deriving DecidableEq, Repr

/-- The state after `Activity.__init__` (with the module-level cache empty). -/
def initialState : ActivityState :=
  ⟨none, none, [], ⟨[]⟩⟩

/-- `Activity.flush_input_stat` as a state transformer on the whole state. -/
def Activity.flush_input_stat (s : ActivityState) (timeout : Bool) :
    ActivityState × List Event :=
  ({ s with input_stat := (flushBank s.input_stat timeout).1 },
   (flushBank s.input_stat timeout).2)

/-- `Activity.handle_window`: resolve the metadata of the current handle; when
it differs from the stored metadata, flush the input bank (timeout false),
emit the `active-window` event and store the new metadata.  A `NoSuchProcess`
error from the resolution propagates (crashing the loop). -/
def handle_window (table : Nat → Option (List String)) (s : ActivityState)
    (win : Option WinQ) :
    Except (PyErr × Cache × List Event) (ActivityState × List Event) :=
  match window_options table s.cache win with
  | Except.error e => Except.error e
  | Except.ok (wd, c', evs) =>
    let s1 : ActivityState := { s with cache := c' }
    if wd = s1.window_details then Except.ok (s1, evs)
    else
      let fr := Activity.flush_input_stat s1 false
      Except.ok ({ fr.1 with window_details := wd },
        evs ++ fr.2 ++ [Event.activeWindow wd])

/-- `Activity.process_window` for one check: the re-subscription of
property-change notifications (`change_attributes`) only affects the X server
and has no observable state here; `handle_window` runs, then `last_window` is
set unconditionally to the current handle. -/
def process_window (table : Nat → Option (List String)) (s : ActivityState)
    (active : Option WinQ) :
    Except (PyErr × Cache × List Event) (ActivityState × List Event) :=
  match handle_window table s active with
  | Except.error e => Except.error e
  | Except.ok (s', evs) =>
    Except.ok ({ s' with last_window := Option.map WinQ.id active }, evs)

/-- Run one check per element of `actives` (the startup check followed by the
notification-driven loop iterations), collecting the emitted events. -/
def runChecks (table : Nat → Option (List String)) :
    ActivityState → List (Option WinQ) →
    Except (PyErr × Cache × List Event) (ActivityState × List Event)
  | s, [] => Except.ok (s, [])
  | s, a :: rest =>
    match process_window table s a with
    | Except.error e => Except.error e
    | Except.ok (s', evs) =>
      match runChecks table s' rest with
      | Except.error e => Except.error e
      | Except.ok (s'', evs') => Except.ok (s'', evs ++ evs')

/-- Whether an event is an `active-window` emission. -/
def isActiveWindow : Event → Bool
  | Event.activeWindow _ => true
  | _ => false

/-! ## Byte-level class property parsing (`EWMH.getWmClass`, `b2s`) -/

/-- UTF-8 decoding of a byte sequence, none on invalid UTF-8 (where Python
bytes.decode raises `UnicodeDecodeError`). -/
def utf8Decode (bs : List UInt8) : Option String :=
  String.fromUTF8? (ByteArray.mk (List.toArray bs))

/-- Python bytes.split on the one-byte separator NUL: segments between NUL
bytes, empty segments included, the empty blob giving one empty segment. -/
def splitNul : List UInt8 → List (List UInt8)
  | [] => [[]]
  | b :: rest =>
    if b = 0 then [] :: splitNul rest
    else
      match splitNul rest with
      | [] => [[b]]
      | seg :: segs => (b :: seg) :: segs

/-- `b2s`: None for a falsy (empty) byte value, otherwise the UTF-8 decoding,
a decoding failure raising out of the call. -/
def b2s (value : List UInt8) : Except Unit (Option String) :=
  if value = [] then Except.ok none
  else
    match utf8Decode value with
    | some s => Except.ok (some s)
    | none => Except.error ()

/-- Python list(map(f, xs)) where f may raise: left to right, the first raise
propagating. -/
def mapExcept {α β ε : Type} (f : α → Except ε β) : List α → Except ε (List β)
  | [] => Except.ok []
  | a :: as =>
    match f a with
    | Except.error e => Except.error e
    | Except.ok b =>
      match mapExcept f as with
      | Except.error e => Except.error e
      | Except.ok bs => Except.ok (b :: bs)

/-- `EWMH.getWmClass`: take the raw WM_CLASS property (a falsy — absent —
property becoming the empty blob), split on NUL bytes, keep the truthy
(non-empty) segments and map `b2s` over them. -/
def getWmClass (raw : Option (List UInt8)) : Except Unit (List (Option String)) :=
  mapExcept b2s
    ((splitNul (raw.getD [])).filter (fun seg => decide (seg ≠ [])))

/-- Modelled from the claim wording for comparison with `getWmClass`: split the
blob on NUL bytes, drop empty segments, decode each remaining segment as
UTF-8, preserving the segment order. -/
def wmClassSpec (raw : Option (List UInt8)) : Except Unit (List String) :=
  mapExcept
    (fun seg =>
      match utf8Decode seg with
      | some s => Except.ok s
      | none => Except.error ())
    ((splitNul (raw.getD [])).filter (fun seg => decide (seg ≠ [])))

/-! ## Concrete scenario inputs -/

/-- A handle whose pid property names a process that no longer exists when the
process table is empty. -/
def staleWin : WinQ :=
  ⟨3, PidProp.val (some 5), XR.ok none, XR.ok false, XR.ok []⟩

/-- A handle that is already gone: every property query answers `BadWindow`. -/
def goneWin : WinQ :=
  ⟨9, PidProp.badWindow, XR.badWindow, XR.badWindow, XR.badWindow⟩

/-- A handle whose pid resolves but whose name query then answers
`BadWindow`. -/
def halfGoneWin : WinQ :=
  ⟨9, PidProp.val (some 5), XR.badWindow, XR.ok false, XR.ok []⟩

/-- A live handle with no pid property, resolving to plain metadata. -/
def plainWin : WinQ :=
  ⟨7, PidProp.val none, XR.ok none, XR.ok false, XR.ok []⟩

/-- The 257 distinct pids 1..257 of the eviction scenario. -/
def pids257 : List Nat := List.range' 1 257

/-- The cache after resolving the 257 distinct pids from an empty cache, for
the process table sending every pid q to cmdline `f q`. -/
def cacheAfter257 (f : Nat → List String) : Cache :=
  (runCache (fun q => some (f q)) ⟨[]⟩ pids257).1

theorem statCount_bump (stat : List (String × Nat)) (k kind : String) :
    statCount (bump stat k) kind =
      statCount stat kind + (if k = kind then 1 else 0) := by
  induction stat with
  | nil =>
    by_cases h : k = kind <;> simp [bump, statCount, h]
  | cons p rest ih =>
    obtain ⟨k', v⟩ := p
    by_cases h1 : k' = k
    · subst h1
      by_cases h2 : k' = kind <;> simp [bump, statCount, h2]
    · by_cases h2 : k' = kind
      · have h3 : ¬k = kind := fun h => h1 (h2.trans h.symm)
        have h4 : ¬kind = k := fun h => h3 h.symm
        simp [bump, statCount, h1, h2, h3, h4]
      · simp [bump, statCount, h1, h2, ih]

theorem runInput_conservation (ops : List InOp) (kind : String) :
    ∀ stat₀ : List (String × Nat),
      emittedCount kind (runInput stat₀ ops).2 +
        statCount (runInput stat₀ ops).1 kind =
      statCount stat₀ kind + recordCount kind ops := by
  induction ops with
  | nil => intro stat₀; simp [runInput, emittedCount, recordCount]
  | cons op ops ih =>
    intro stat₀
    cases op with
    | record k =>
      simp only [runInput, recordCount]
      rw [ih (bump stat₀ k), statCount_bump]
      omega
    | flush t =>
      simp only [runInput, flushBank]
      by_cases h : stat₀ = []
      · rw [if_pos h]
        simpa [recordCount] using ih stat₀
      · rw [if_neg h]
        simp only [List.append_eq, List.singleton_append, List.nil_append,
          emittedCount, recordCount]
        have h5 := ih ([] : List (String × Nat))
        simp only [statCount] at h5
        omega

theorem runInput_final_bank_after_flush (t : Bool) (ops : List InOp) :
    ∀ stat₀, (runInput stat₀ (ops ++ [InOp.flush t])).1 = [] := by
  induction ops with
  | nil =>
    intro stat₀
    by_cases h : stat₀ = [] <;> simp [runInput, flushBank, h]
  | cons op ops ih =>
    intro stat₀
    cases op with
    | record k => simpa [runInput] using ih (bump stat₀ k)
    | flush t' => simpa [runInput] using ih (flushBank stat₀ t').1

theorem recordCount_append (kind : String) (ops₁ ops₂ : List InOp) :
    recordCount kind (ops₁ ++ ops₂) =
      recordCount kind ops₁ + recordCount kind ops₂ := by
  induction ops₁ with
  | nil => simp [recordCount]
  | cons op ops ih => cases op <;> simp [recordCount, ih, Nat.add_assoc]

/-- C1: conservation of input counts.  First conjunct: for every trace of
record and flush operations and every kind, the counts reported across the
emitted `input` events plus the count still pending in the final bank equal the
count initially pending plus the number of `record kind` calls — no count is
lost and none is double-counted.  Second conjunct: for a trace ending in a
flush and starting from the empty bank, the reported total is exactly the
number of `record kind` calls made before that final flush. -/
theorem input_count_conservation (ops : List InOp) (kind : String) :
    (∀ stat₀ : List (String × Nat),
      emittedCount kind (runInput stat₀ ops).2 +
        statCount (runInput stat₀ ops).1 kind =
      statCount stat₀ kind + recordCount kind ops) ∧
    (∀ t : Bool,
      emittedCount kind (runInput [] (ops ++ [InOp.flush t])).2 =
        recordCount kind ops) := by
  refine ⟨runInput_conservation ops kind, fun t => ?_⟩
  have h := runInput_conservation (ops ++ [InOp.flush t]) kind []
  rw [runInput_final_bank_after_flush t ops [], recordCount_append] at h
  simpa [statCount, recordCount] using h

theorem flush_events_no_active (s : ActivityState) (t : Bool) :
    (Activity.flush_input_stat s t).2.filter isActiveWindow = [] := by
  by_cases h : s.input_stat = [] <;>
    simp [Activity.flush_input_stat, flushBank, h, isActiveWindow]


theorem cmdline_by_pid_events_no_active (table : Nat → Option (List String))
    (c : Cache) (p : Nat) (v : List String) (c2 : Cache) (evs : List Event)
    (h : cmdline_by_pid table c p = Except.ok (v, c2, evs)) :
    evs.filter isActiveWindow = [] := by
  unfold cmdline_by_pid at h
  split at h
  · simp only [Except.ok.injEq, Prod.mk.injEq] at h
    rcases h with ⟨-, -, rfl⟩
    rfl
  · split at h
    · simp at h
    · simp only [Except.ok.injEq, Prod.mk.injEq] at h
      rcases h with ⟨-, -, rfl⟩
      rfl

theorem cmdlineStep_events_no_active (table : Nat → Option (List String))
    (c : Cache) (pid : Option Nat) (c1 : Cache) (evs : List Event)
    (h : cmdlineStep table c pid = Except.ok (c1, evs)) :
    evs.filter isActiveWindow = [] := by
  unfold cmdlineStep at h
  split at h
  · simp only [Except.ok.injEq, Prod.mk.injEq] at h
    rcases h with ⟨-, rfl⟩
    rfl
  · split at h
    · simp only [Except.ok.injEq, Prod.mk.injEq] at h
      rcases h with ⟨-, rfl⟩
      rfl
    · split at h
      · simp at h
      · rename_i p hp0 r v' c2 evs2 heq
        simp only [Except.ok.injEq, Prod.mk.injEq] at h
        rcases h with ⟨-, rfl⟩
        exact cmdline_by_pid_events_no_active table c p v' c2 evs2 heq

theorem window_options_body_events_no_active (table : Nat → Option (List String))
    (c : Cache) (w : WinQ) :
    (∀ md c' evs, window_options_body table c w = Except.ok (md, c', evs) →
      evs.filter isActiveWindow = []) ∧
    (∀ e c' evs, window_options_body table c w = Except.error (e, c', evs) →
      evs.filter isActiveWindow = []) := by
  constructor
  · intro md c' evs h
    unfold window_options_body at h
    split at h
    · simp at h
    · split at h
      · simp at h
      · rename_i c1 evs1 heq
        split at h
        · simp at h
        · split at h
          · simp at h
          · split at h
            · simp at h
            · simp only [Except.ok.injEq, Prod.mk.injEq] at h
              rcases h with ⟨-, -, rfl⟩
              exact cmdlineStep_events_no_active table c _ c1 evs1 heq
  · intro e c' evs h
    unfold window_options_body at h
    split at h
    · simp only [Except.error.injEq, Prod.mk.injEq] at h
      rcases h with ⟨-, -, rfl⟩
      rfl
    · split at h
      · simp only [Except.error.injEq, Prod.mk.injEq] at h
        rcases h with ⟨-, -, rfl⟩
        rfl
      · rename_i c1 evs1 heq
        split at h
        · simp only [Except.error.injEq, Prod.mk.injEq] at h
          rcases h with ⟨-, -, rfl⟩
          exact cmdlineStep_events_no_active table c _ c1 evs1 heq
        · split at h
          · simp only [Except.error.injEq, Prod.mk.injEq] at h
            rcases h with ⟨-, -, rfl⟩
            exact cmdlineStep_events_no_active table c _ c1 evs1 heq
          · split at h
            · simp only [Except.error.injEq, Prod.mk.injEq] at h
              rcases h with ⟨-, -, rfl⟩
              exact cmdlineStep_events_no_active table c _ c1 evs1 heq
            · simp at h

theorem window_options_events_no_active (table : Nat → Option (List String))
    (c : Cache) (win : Option WinQ) (wd : Option WindowMetadata) (c' : Cache)
    (evs : List Event)
    (h : window_options table c win = Except.ok (wd, c', evs)) :
    evs.filter isActiveWindow = [] := by
  unfold window_options at h
  split at h
  · simp only [Except.ok.injEq, Prod.mk.injEq] at h
    rcases h with ⟨-, -, rfl⟩
    rfl
  · rename_i w
    split at h
    · rename_i md c2 evs2 heq
      simp only [Except.ok.injEq, Prod.mk.injEq] at h
      rcases h with ⟨-, -, rfl⟩
      exact (window_options_body_events_no_active table c w).1 md c2 evs2 heq
    · rename_i c2 evs2 heq
      simp only [Except.ok.injEq, Prod.mk.injEq] at h
      rcases h with ⟨-, -, rfl⟩
      exact (window_options_body_events_no_active table c w).2 PyErr.badWindow c2 evs2 heq
    · simp at h

/-- C2: for every check whose resolution completes, an `active-window` event is
emitted exactly when the freshly resolved metadata `wd` differs structurally
from the stored metadata (so two consecutive structurally equal resolutions —
even from different handles — emit nothing, while both the None-to-Some and
the Some-to-None transition emit exactly one event carrying the new metadata),
and `last_window` is updated to the current handle unconditionally. -/
theorem active_window_emission_iff_metadata_change
    (table : Nat → Option (List String)) (s : ActivityState) (active : Option WinQ)
    (wd : Option WindowMetadata) (c' : Cache) (wEvs : List Event)
    (s' : ActivityState) (evs : List Event)
    (h : window_options table s.cache active = Except.ok (wd, c', wEvs))
    (hp : process_window table s active = Except.ok (s', evs)) :
    s'.last_window = Option.map WinQ.id active ∧
    s'.window_details = wd ∧
    evs.filter isActiveWindow =
      (if wd = s.window_details then [] else [Event.activeWindow wd]) := by
  have hw : wEvs.filter isActiveWindow = [] :=
    window_options_events_no_active table s.cache active wd c' wEvs h
  simp only [process_window, handle_window, h] at hp
  by_cases hd : wd = s.window_details
  · rw [if_pos hd] at hp
    simp only [Except.ok.injEq, Prod.mk.injEq] at hp
    rcases hp with ⟨rfl, rfl⟩
    refine ⟨rfl, ?_, ?_⟩
    · exact hd.symm
    · rw [if_pos hd]
      exact hw
  · rw [if_neg hd] at hp
    simp only [Except.ok.injEq, Prod.mk.injEq] at hp
    rcases hp with ⟨rfl, rfl⟩
    refine ⟨rfl, rfl, ?_⟩
    rw [if_neg hd]
    simp [List.filter_append, hw, flush_events_no_active, isActiveWindow]

/-- C2 witness: focusing a first window from the startup state emits exactly
one `active-window` event and records the handle. -/
theorem active_window_emission_instance :
    (⟨some ⟨none, 7, none, false, []⟩, some 7, [], ⟨[]⟩⟩ : ActivityState).last_window =
      Option.map WinQ.id (some plainWin) ∧
    (⟨some ⟨none, 7, none, false, []⟩, some 7, [], ⟨[]⟩⟩ : ActivityState).window_details =
      some ⟨none, 7, none, false, []⟩ ∧
    List.filter isActiveWindow [Event.activeWindow (some ⟨none, 7, none, false, []⟩)] =
      (if some (⟨none, 7, none, false, []⟩ : WindowMetadata) = initialState.window_details
        then [] else [Event.activeWindow (some ⟨none, 7, none, false, []⟩)]) :=
  active_window_emission_iff_metadata_change (fun _ => none) initialState
    (some plainWin) (some ⟨none, 7, none, false, []⟩) ⟨[]⟩ []
    ⟨some ⟨none, 7, none, false, []⟩, some 7, [], ⟨[]⟩⟩
    [Event.activeWindow (some ⟨none, 7, none, false, []⟩)] rfl rfl

/-- C3: evaluating the resolver at a handle whose pid property names a process
that no longer exists.  The lookup failure leaves the cache unchanged and
propagates out of the cache, but the resolver does not treat it like an absent
pid: `window_options` raises it (an `Except.error` result) instead of
completing the resolution, so the check cycle crashes. -/
theorem dead_pid_crashes_resolution :
    window_options (fun _ => none) ⟨[]⟩ (some staleWin) =
      Except.error (PyErr.noSuchProcess, ⟨[]⟩, []) := rfl

/-- C4 counterexample: with no window focused, the unconditional startup check
emits no event at all — in particular not the claimed single `active-window`
event with null payload — and leaves the state unchanged. -/
theorem startup_no_focus_counterexample :
    process_window (fun _ => none) initialState none =
      Except.ok (initialState, []) := rfl

/-- C4 amended: if no window is ever focused (the handle is absent at startup
and stays absent), the startup check and every subsequent check emit nothing:
each check resolves metadata None, structurally equal to the stored None, so
no `active-window` event is ever emitted and the state stays initial. -/
theorem no_focus_never_emits (table : Nat → Option (List String)) (n : Nat) :
    runChecks table initialState (List.replicate n none) =
      Except.ok (initialState, []) := by
  induction n with
  | zero => rfl
  | succ n ih =>
    have hstep : process_window table initialState none =
        Except.ok (initialState, []) := rfl
    simp [List.replicate, runChecks, hstep, ih]

/-- C5: flushing an empty counter bank is a no-op for either timeout flag: no
event is emitted and the whole state — bank included — is unchanged. -/
theorem flush_empty_bank_noop (s : ActivityState) (t : Bool)
    (h : s.input_stat = []) :
    Activity.flush_input_stat s t = (s, []) := by
  obtain ⟨wd, lw, stat, ca⟩ := s
  have h' : stat = [] := h
  subst h'
  simp [Activity.flush_input_stat, flushBank]

/-- C5 witness: flushing the startup state, whose bank is empty. -/
theorem flush_empty_bank_noop_instance :
    Activity.flush_input_stat initialState true = (initialState, []) :=
  flush_empty_bank_noop initialState true rfl

/-- C7: the resolver returns None for an absent handle without error; a
BadWindow raised by a property query of the body is swallowed and resolution
completes with None (keeping whatever the cache and output stream already
got); and an invalid-window error is never propagated to the caller — the
only error that can escape a resolution is a process-lookup failure. -/
theorem resolver_swallows_bad_window (table : Nat → Option (List String)) :
    (∀ c : Cache, window_options table c none = Except.ok (none, c, [])) ∧
    (∀ (c : Cache) (w : WinQ) (c' : Cache) (evs : List Event),
      window_options_body table c w = Except.error (PyErr.badWindow, c', evs) →
      window_options table c (some w) = Except.ok (none, c', evs)) ∧
    (∀ (c : Cache) (w : WinQ) (e : PyErr) (c' : Cache) (evs : List Event),
      window_options table c (some w) = Except.error (e, c', evs) →
      e = PyErr.noSuchProcess) := by
  refine ⟨fun c => rfl, ?_, ?_⟩
  · intro c w c' evs h
    simp [window_options, h]
  · intro c w e c' evs h
    simp only [window_options] at h
    split at h
    all_goals
      first
      | (simp only [Except.error.injEq, Prod.mk.injEq] at h
         exact h.1.symm)
      | simp at h

/-- C7 witness: a handle that is gone before the first property query resolves
to None with the cache untouched and nothing emitted. -/
theorem resolver_swallows_instance :
    window_options (fun _ => none) (⟨[]⟩ : Cache) (some goneWin) =
      Except.ok (none, ⟨[]⟩, []) :=
  (resolver_swallows_bad_window (fun _ => none)).2.1 ⟨[]⟩ goneWin ⟨[]⟩ [] rfl

theorem take_append_take {α : Type} (A B : List α) (n : Nat) :
    (A ++ B.take n).take n = (A ++ B).take n := by
  rw [List.take_append_eq_append_take, List.take_append_eq_append_take,
    List.take_take, Nat.min_eq_left (Nat.sub_le n A.length)]

theorem cacheLookup_take_none (l : List (Nat × List String)) (q : Nat)
    (h : cacheLookup l q = none) :
    ∀ n, cacheLookup (l.take n) q = none := by
  induction l with
  | nil => intro n; simp [cacheLookup]
  | cons a rest ih =>
    intro n
    obtain ⟨p, v⟩ := a
    cases n with
    | zero => simp [cacheLookup]
    | succ n =>
      simp only [List.take_succ_cons]
      simp only [cacheLookup] at h ⊢
      by_cases hq : q = p
      · simp [hq] at h
      · simp only [if_neg hq] at h ⊢
        exact ih h n

theorem cacheLookup_take_head (p : Nat) (v : List String)
    (l : List (Nat × List String)) (n : Nat) (hn : 0 < n) :
    cacheLookup (((p, v) :: l).take n) p = some v := by
  cases n with
  | zero => exact absurd hn (by simp)
  | succ n => simp [List.take_succ_cons, cacheLookup]

theorem runCache_fresh (f : Nat → List String) (L : List Nat) :
    ∀ c : Cache, L.Nodup → (∀ p ∈ L, cacheLookup c.entries p = none) →
    c.entries.length ≤ CACHE_MAX →
    runCache (fun q => some (f q)) c L =
      (⟨((L.map (fun p => (p, f p))).reverse ++ c.entries).take CACHE_MAX⟩,
       L.map (fun p => Event.newPid p (f p))) := by
  induction L with
  | nil =>
    intro c _ _ hlen
    simp [runCache, List.take_of_length_le hlen]
  | cons p L ih =>
    intro c hnd hf hlen
    obtain ⟨hp, hndL⟩ := List.nodup_cons.mp hnd
    have hcp : cacheLookup c.entries p = none := hf p (List.mem_cons_self p L)
    have hone : cmdline_by_pid (fun q => some (f q)) c p =
        Except.ok (f p, ⟨((p, f p) :: c.entries).take CACHE_MAX⟩,
          [Event.newPid p (f p)]) := by
      simp [cmdline_by_pid, hcp]
    have hf1 : ∀ q ∈ L,
        cacheLookup (((p, f p) :: c.entries).take CACHE_MAX) q = none := by
      intro q hq
      apply cacheLookup_take_none
      have hqp : ¬q = p := fun hh => hp (hh ▸ hq)
      simp only [cacheLookup, if_neg hqp]
      exact hf q (List.mem_cons_of_mem p hq)
    have hlen1 : (((p, f p) :: c.entries).take CACHE_MAX).length ≤ CACHE_MAX :=
      List.length_take_le CACHE_MAX _
    have hrec := ih ⟨((p, f p) :: c.entries).take CACHE_MAX⟩ hndL hf1 hlen1
    simp only [runCache, hone, hrec]
    rw [take_append_take]
    simp [List.reverse_cons, List.append_assoc]

theorem cacheLookup_map (f : Nat → List String) (R : List Nat) (q : Nat) :
    cacheLookup (R.map (fun p => (p, f p))) q =
      if q ∈ R then some (f q) else none := by
  induction R with
  | nil => simp [cacheLookup]
  | cons a R ih =>
    by_cases hq : q = a
    · subst hq
      simp [cacheLookup]
    · simp [cacheLookup, hq, ih, List.mem_cons]

theorem cacheAfter257_entries (f : Nat → List String) :
    (cacheAfter257 f).entries =
      ((List.range' 2 256).reverse).map (fun p => (p, f p)) := by
  have hnd : pids257.Nodup := List.nodup_range' 1 257
  have hfresh : ∀ p ∈ pids257, cacheLookup (⟨[]⟩ : Cache).entries p = none := by
    intro p _; rfl
  have h := runCache_fresh f pids257 ⟨[]⟩ hnd hfresh (by simp [CACHE_MAX])
  rw [cacheAfter257, h]
  show (((pids257.map (fun p => (p, f p))).reverse ++ []).take CACHE_MAX) = _
  rw [List.append_nil]
  have hsplit : pids257 = 1 :: List.range' 2 256 := by
    show List.range' 1 (256 + 1) = 1 :: List.range' 2 256
    rw [List.range'_succ]
  rw [hsplit, List.map_cons, List.reverse_cons]
  rw [List.take_left' (by simp [CACHE_MAX]), ← List.map_reverse]

/-- C6: the `new-pid` event fires exactly once per cache lifetime of a pid, and
eviction is least-recently-used with capacity 256.  Over a live process table
sending pid q to cmdline `f q`: (1) a cache hit emits nothing and keeps the
pid cached (refreshing its recency); (2) a miss-fill emits exactly one
`new-pid` event and caches the pid most-recently-used, truncating to 256
entries; (3) resolving the 257 distinct pids 1..257 from an empty cache emits
exactly one `new-pid` per pid; (4) it evicts pid 1, the least recently used;
(5) every other pid of the run stays cached; (6) re-resolving pid 1 after its
eviction emits `new-pid` for it again. -/
theorem new_pid_once_per_cache_lifetime (f : Nat → List String) :
    (∀ (c : Cache) (p : Nat) (v : List String), cacheLookup c.entries p = some v →
      cmdline_by_pid (fun q => some (f q)) c p =
        Except.ok (v, ⟨(p, v) :: cacheRemove c.entries p⟩, [])) ∧
    (∀ (c : Cache) (p : Nat), cacheLookup c.entries p = none →
      cmdline_by_pid (fun q => some (f q)) c p =
        Except.ok (f p, ⟨((p, f p) :: c.entries).take CACHE_MAX⟩,
          [Event.newPid p (f p)])) ∧
    ((runCache (fun q => some (f q)) ⟨[]⟩ pids257).2 =
      pids257.map (fun p => Event.newPid p (f p))) ∧
    (cacheLookup (cacheAfter257 f).entries 1 = none) ∧
    (∀ p ∈ pids257, p ≠ 1 →
      cacheLookup (cacheAfter257 f).entries p = some (f p)) ∧
    (cmdline_by_pid (fun q => some (f q)) (cacheAfter257 f) 1 =
      Except.ok (f 1, ⟨((1, f 1) :: (cacheAfter257 f).entries).take CACHE_MAX⟩,
        [Event.newPid 1 (f 1)])) := by
  have hevict : cacheLookup (cacheAfter257 f).entries 1 = none := by
    rw [cacheAfter257_entries, cacheLookup_map, if_neg]
    intro hmem
    have h1 := List.mem_range'_1.mp (List.mem_reverse.mp hmem)
    omega
  refine ⟨?_, ?_, ?_, hevict, ?_, ?_⟩
  · intro c p v h
    simp [cmdline_by_pid, h]
  · intro c p h
    simp [cmdline_by_pid, h]
  · have hnd : pids257.Nodup := List.nodup_range' 1 257
    have hfresh : ∀ p ∈ pids257, cacheLookup (⟨[]⟩ : Cache).entries p = none := by
      intro p _; rfl
    rw [runCache_fresh f pids257 ⟨[]⟩ hnd hfresh (by simp [CACHE_MAX])]
  · intro p hp hne
    have hb := List.mem_range'_1.mp hp
    rw [cacheAfter257_entries, cacheLookup_map, if_pos]
    exact List.mem_reverse.mpr (List.mem_range'_1.mpr (by omega))
  · simp [cmdline_by_pid, hevict]

/-- C6 witness: a first resolution of pid 7 against an empty cache is a
miss-fill emitting exactly one `new-pid` event. -/
theorem new_pid_once_instance :
    cmdline_by_pid (fun _ => some []) (⟨[]⟩ : Cache) 7 =
      Except.ok (([] : List String), ⟨((7, ([] : List String)) :: []).take CACHE_MAX⟩,
        [Event.newPid 7 []]) :=
  (new_pid_once_per_cache_lifetime (fun _ => [])).2.1 ⟨[]⟩ 7 rfl

/-- C10: the `new-pid` emission is not atomic with a successful resolution.
When the pid query yields a fresh live pid — so the miss-fill emits `new-pid`
and caches the entry — and a later property query of the same resolution
answers BadWindow, the resolution returns None, yet the `new-pid` event stands
emitted and the pid remains cached. -/
theorem new_pid_not_atomic (table : Nat → Option (List String)) (c : Cache)
    (w : WinQ) (p : Nat) (v : List String)
    (hp : w.pidQ = PidProp.val (some p)) (hp0 : ¬p = 0)
    (hc : cacheLookup c.entries p = none) (ht : table p = some v)
    (hbad : w.nameQ = XR.badWindow ∨ w.fsQ = XR.badWindow ∨
      w.classQ = XR.badWindow) :
    window_options table c (some w) =
      Except.ok (none, ⟨((p, v) :: c.entries).take CACHE_MAX⟩,
        [Event.newPid p v]) ∧
    cacheLookup (((p, v) :: c.entries).take CACHE_MAX) p = some v := by
  have hcl : cmdline_by_pid table c p =
      Except.ok (v, ⟨((p, v) :: c.entries).take CACHE_MAX⟩,
        [Event.newPid p v]) := by
    simp [cmdline_by_pid, hc, ht]
  have hstep : cmdlineStep table c (some p) =
      Except.ok (⟨((p, v) :: c.entries).take CACHE_MAX⟩,
        [Event.newPid p v]) := by
    simp [cmdlineStep, hp0, hcl]
  refine ⟨?_, cacheLookup_take_head p v c.entries CACHE_MAX (by norm_num [CACHE_MAX])⟩
  rcases hbad with hb | hb | hb
  · simp [window_options, window_options_body, getWmPid, hp, hstep, hb]
  · cases hn : w.nameQ with
    | badWindow =>
      simp [window_options, window_options_body, getWmPid, hp, hstep, hn]
    | ok name =>
      simp [window_options, window_options_body, getWmPid, hp, hstep, hn, hb]
  · cases hn : w.nameQ with
    | badWindow =>
      simp [window_options, window_options_body, getWmPid, hp, hstep, hn]
    | ok name =>
      cases hfs : w.fsQ with
      | badWindow =>
        simp [window_options, window_options_body, getWmPid, hp, hstep, hn, hfs]
      | ok fs =>
        simp [window_options, window_options_body, getWmPid, hp, hstep, hn, hfs, hb]

/-- C10 witness: a fresh live pid whose window dies before the name query. -/
theorem new_pid_not_atomic_instance :
    (window_options (fun _ => some ["x"]) (⟨[]⟩ : Cache) (some halfGoneWin) =
      Except.ok (none, ⟨((5, ["x"]) :: ([] : List (Nat × List String))).take CACHE_MAX⟩,
        [Event.newPid 5 ["x"]]) ∧
    cacheLookup (((5, ["x"]) :: ([] : List (Nat × List String))).take CACHE_MAX) 5 =
      some ["x"]) :=
  new_pid_not_atomic (fun _ => some ["x"]) ⟨[]⟩ halfGoneWin 5 ["x"] rfl
    (by norm_num) rfl rfl (Or.inl rfl)

/-- C8: an `input` event of any aggregator trace carries the interval field
exactly when its timeout flag is true, and then it holds the configured flush
interval 20; a flush with timeout false never includes it. -/
theorem interval_iff_timeout (ops : List InOp) (stat₀ : List (String × Nat))
    (t : Bool) (stats : List (String × Nat)) (itv : Option Nat)
    (h : Event.input t stats itv ∈ (runInput stat₀ ops).2) :
    itv = (if t then some 20 else none) := by
  induction ops generalizing stat₀ with
  | nil => simp [runInput] at h
  | cons op ops ih =>
    cases op with
    | record k => exact ih (bump stat₀ k) (by simpa [runInput] using h)
    | flush tf =>
      simp only [runInput] at h
      rcases List.mem_append.mp h with h1 | h2
      · by_cases he : stat₀ = []
        · simp [flushBank, he] at h1
        · simp only [flushBank, if_neg he, List.mem_singleton, Event.input.injEq] at h1
          obtain ⟨rfl, -, rfl⟩ := h1
          rfl
      · exact ih (flushBank stat₀ tf).1 h2

/-- C8 witness: one recorded press flushed by the timer carries interval 20. -/
theorem interval_iff_timeout_instance :
    Event.input true [("press", 1)] (some 20) ∈
      (runInput [] [InOp.record "press", InOp.flush true]).2 ∧
    (some 20 : Option Nat) = (if true then some 20 else none) :=
  ⟨by decide, interval_iff_timeout [InOp.record "press", InOp.flush true] []
    true [("press", 1)] (some 20) (by decide)⟩

theorem mapExcept_b2s_nonempty (segs : List (List UInt8))
    (hne : ∀ seg ∈ segs, seg ≠ []) :
    mapExcept b2s segs =
      Except.map (List.map some)
        (mapExcept
          (fun seg =>
            match utf8Decode seg with
            | some s => Except.ok s
            | none => Except.error ())
          segs) := by
  induction segs with
  | nil => rfl
  | cons a as ih =>
    have ha : a ≠ [] := hne a (List.mem_cons_self a as)
    have has : ∀ seg ∈ as, seg ≠ [] :=
      fun seg hs => hne seg (List.mem_cons_of_mem a hs)
    simp only [mapExcept, b2s, if_neg ha]
    cases hd : utf8Decode a with
    | none => rfl
    | some s =>
      rw [ih has]
      cases hm : mapExcept
          (fun seg =>
            match utf8Decode seg with
            | some s => Except.ok s
            | none => Except.error ())
          as with
      | error e => rfl
      | ok bs => rfl

/-- C9: the class identifier list computed by `getWmClass` is exactly what the
spec describes — the raw blob split on NUL bytes, empty segments dropped, the
remaining segments decoded as UTF-8 in their original order (each resulting
Python value being the non-None decoded string). -/
theorem getWmClass_matches_spec (raw : Option (List UInt8)) :
    getWmClass raw = Except.map (List.map some) (wmClassSpec raw) := by
  unfold getWmClass wmClassSpec
  apply mapExcept_b2s_nonempty
  intro seg hs
  have h := List.of_mem_filter hs
  simpa using of_decide_eq_true h
